import Mathlib

/-!
Verification development for the per-group message-processing pipeline of
`nonebot-plugin-llmchat` (source: `src/nonebot_plugin_llmchat/__init__.py`).

Modelling conventions:
* Python strings are embedded as `List Char` (`PyStr`).  The handful of
  Python string primitives the plugin uses (`str.strip`, `str.isspace`,
  `str.replace(old, "")`, `str.split(sep)`, and the anchored regex
  `re.match(r"<think>(.*?)</think>", s, re.DOTALL)`) are translated below.
  Non-structurally-recursive scans carry a fuel argument `s.length + 1`,
  which is always sufficient because every step consumes at least one
  character; this keeps every definition kernel-computable.
* A `RawEvent` is represented by the string `format_message` renders it to
  (the transport adapter supplying nicknames/ids/timestamps is outside the
  specified core); the Group Worker only ever uses that rendering.
* The model backend call is an opaque outcome `ModelResult`: either an
  exception (timeout / transport / backend error, all caught uniformly by
  the worker) or a response carrying the optional message content and the
  optional out-of-band `reasoning_content` attribute.
* `random.random() < prob` in `is_triggered` is supplied as the boolean
  input `rnd`, and `event.is_tome()` as the boolean input `tome`.
* Cooperative (asyncio) scheduling: code between two `await` points runs
  atomically.  The dispatcher body `queue.put` + check-and-set contains no
  blocking await, hence is one atomic action; the worker suspends at the
  model call, which the interleaving system `Sys` below reflects.
-/

/-! ## Python string primitives -/

/-- Python strings, embedded as lists of characters. -/
abbrev PyStr := List Char

/-- Python whitespace test for a single character (as used by `str.strip()`
and `str.isspace()`). -/
def isWS (c : Char) : Bool := c.isWhitespace

/-- `s.strip()`: drop leading and trailing whitespace. -/
def stripL (s : PyStr) : PyStr :=
  ((s.dropWhile isWS).reverse.dropWhile isWS).reverse

/-- `s.isspace()`: nonempty and all whitespace. -/
def isSpaceL (s : PyStr) : Bool := !s.isEmpty && s.all isWS

/-- Find the first occurrence of `pat` in `s`; return the text before it and
the text after it.  (`none` when `pat` does not occur; we only call this
with nonempty `pat`.)  This is the search step of Python's
`re.match(r"<think>(.*?)</think>", ...)` non-greedy inner group and of
`str.split`. -/
def splitFirst (pat : PyStr) : PyStr → Option (PyStr × PyStr)
  | [] => none
  | c :: rest =>
    if pat.isPrefixOf (c :: rest) then
      some ([], (c :: rest).drop pat.length)
    else
      match splitFirst pat rest with
      | some (a, b) => some (c :: a, b)
      | none => none

/-- Fueled scan for `s.replace(pat, "")`: remove every (leftmost,
non-overlapping) occurrence of `pat`. -/
def removeAllGo (pat : PyStr) : Nat → PyStr → PyStr
  | 0, s => s
  | _ + 1, [] => []
  | fuel + 1, c :: rest =>
    if pat != [] && pat.isPrefixOf (c :: rest) then
      removeAllGo pat fuel ((c :: rest).drop pat.length)
    else
      c :: removeAllGo pat fuel rest

/-- Python `s.replace(pat, "")`. -/
def removeAll (s pat : PyStr) : PyStr := removeAllGo pat (s.length + 1) s

/-- Fueled scan for `s.split(sep)` with nonempty `sep`. -/
def splitGo (sep : PyStr) : Nat → PyStr → PyStr → List PyStr
  | 0, acc, s => [acc.reverse ++ s]
  | _ + 1, acc, [] => [acc.reverse]
  | fuel + 1, acc, c :: rest =>
    if sep.isPrefixOf (c :: rest) then
      acc.reverse :: splitGo sep fuel [] ((c :: rest).drop sep.length)
    else
      splitGo sep fuel (c :: acc) rest

/-- Python `s.split(sep)` (keeps empty segments, as Python does). -/
def splitOnL (s sep : PyStr) : List PyStr :=
  if sep.isEmpty then [s] else splitGo sep (s.length + 1) [] s

/-- Python `sep.join(xs)`. -/
def joinL (sep : PyStr) : List PyStr → PyStr
  | [] => []
  | [x] => x
  | x :: xs => x ++ sep ++ joinL sep xs

/-! ## Reply Splitter (`pop_reasoning_content`, lines 56-72) -/

/-- The literal `"<think>"`. -/
def thinkOpenT : PyStr := ['<', 't', 'h', 'i', 'n', 'k', '>']

/-- The literal `"</think>"`. -/
def thinkCloseT : PyStr := ['<', '/', 't', 'h', 'i', 'n', 'k', '>']

/-- The literal `"<botbr>"` inter-message delimiter. -/
def botbrT : PyStr := ['<', 'b', 'o', 't', 'b', 'r', '>']

/-- `re.match(r"<think>(.*?)</think>", c, flags=re.DOTALL)`: anchored at the
start of `c`; the non-greedy group captures the text up to the *first*
`"</think>"`.  Returns `matched.group(1)`. -/
def matchThink (c : PyStr) : Option PyStr :=
  if thinkOpenT.isPrefixOf c then
    match splitFirst thinkCloseT (c.drop thinkOpenT.length) with
    | some (t, _) => some t
    | none => none
  else none

/-- `pop_reasoning_content` (lines 56-72).  Note that on a (truthy, i.e.
nonempty) match the code computes `content.replace(think_content, "")`:
it removes the occurrences of the *inner* text, not the `<think></think>`
tags. -/
def pop_reasoning_content (content : Option PyStr) :
    Option PyStr × Option PyStr :=
  match content with
  | none => (none, none)
  | some c =>
    match matchThink c with
    | some t =>
      if t != [] then (some (stripL (removeAll c t)), some (stripL t))
      else (some c, none)
    | none => (some c, none)

/-! ## Data model (`GroupState`, lines 76-86, and plugin configuration) -/

/-- One role-tagged message of the rolling history. -/
structure Turn where
  role : String
  content : PyStr
deriving DecidableEq, Repr

/-- A `RawEvent` is identified with the string `format_message` (lines
101-127) renders it to; the worker only ever consumes that rendering. -/
abbrev RawEvent := PyStr

/-- The slice of the plugin configuration the core pipeline reads:
`default_preset`, `history_size` (bound N on `history`), and
`past_events_size` (bound M on `past_events`). -/
structure Config where
  default_preset : String
  history_size : Nat
  past_events_size : Nat
deriving DecidableEq, Repr

/-- `collections.deque` append with `maxlen = n`: the oldest element is
evicted from the left when the bound is reached. -/
def dequeAppend (n : Nat) (l : List α) (x : α) : List α :=
  (l ++ [x]).drop (l.length + 1 - n)

/-- `deque(iterable, maxlen = n)`: keeps the *last* `n` elements. -/
def dequeInit (n : Nat) (l : List α) : List α := l.drop (l.length - n)

/-- `GroupState.__init__` fields (lines 76-86).  `last_active` is an opaque
timestamp. -/
structure GroupState where
  preset_name : String
  history : List Turn
  queue : List RawEvent
  processing : Bool
  last_active : Nat
  past_events : List RawEvent
  group_prompt : Option PyStr
  output_reasoning_content : Bool
deriving DecidableEq, Repr

/-- A fresh `GroupState()` (lines 77-85). -/
def initGroupState (cfg : Config) : GroupState :=
  { preset_name := cfg.default_preset
    history := []
    queue := []
    processing := false
    last_active := 0
    past_events := []
    group_prompt := none
    output_reasoning_content := false }

/-! ## Dispatcher (`is_triggered`, lines 130-148, and `handle_message`,
lines 159-173) -/

/-- `is_triggered` (lines 130-148): with preset `"off"` the rule rejects
before touching any state; otherwise the event is recorded in
`past_events` and the rule fires iff the message is addressed to the bot
(`tome`) or the random trigger (`rnd`) fires. -/
def is_triggered (cfg : Config) (st : GroupState) (ev : RawEvent)
    (tome rnd : Bool) : Bool × GroupState :=
  if st.preset_name = "off" then (false, st)
  else
    let st1 := { st with
      past_events := dequeAppend cfg.past_events_size st.past_events ev }
    (tome || rnd, st1)

/-- `handle_message` (lines 159-173): enqueue, then spawn a worker iff
none is marked `processing`.  Returns the new state and whether a worker
task was spawned. -/
def handle_message (st : GroupState) (ev : RawEvent) : GroupState × Bool :=
  let st1 := { st with queue := st.queue ++ [ev] }
  if st1.processing then (st1, false)
  else ({ st1 with processing := true }, true)

/-- One inbound group message: the `is_triggered` rule followed (on
trigger) by the `handle_message` handler.  In asyncio this whole path runs
without an interleaving point (the unbounded `queue.put` never blocks), so
it is one atomic action. -/
def submit (cfg : Config) (st : GroupState) (ev : RawEvent)
    (tome rnd : Bool) : GroupState × Bool :=
  let tr := is_triggered cfg st ev tome rnd
  if tr.1 then handle_message tr.2 ev else (tr.2, false)

/-! ## Group Worker (`process_messages`, lines 176-282) -/

/-- Outcome of the `client.chat.completions.create` call: any raised
exception (timeout / transport failure / backend error) or a response
carrying `choices[0].message.content` and the optional attribute
`choices[0].message.reasoning_content`. -/
inductive ModelResult where
  | failure (err : PyStr)
  | success (content : Option PyStr) (reasoning_field : Option PyStr)
deriving DecidableEq, Repr

/-- The outbound message sent by the `except` handler (line 278):
`f"服务暂时不可用，请稍后再试\n{e!s}"`. -/
def failMsgText (e : PyStr) : PyStr :=
  "服务暂时不可用，请稍后再试\n".toList ++ e

/-- Python `a or b` on optional strings (line 244-247): `a` wins iff it is
truthy, i.e. present and nonempty. -/
def pyOr (a b : Option PyStr) : Option PyStr :=
  match a with
  | some s => if s != [] then some s else b
  | none => b

/-- The reasoning message emitted at lines 249-250: sent iff
`output_reasoning_content` is on and the chosen reasoning content is
truthy. -/
def reasoningOut (st : GroupState) (reasoning : Option PyStr) : List PyStr :=
  match reasoning with
  | some rc => if st.output_reasoning_content && rc != [] then [rc] else []
  | none => []

/-- The segment loop of lines 256-266: split the visible reply on
`"<botbr>"`, skip empty / whitespace-only segments, strip the rest.  Each
remaining segment is one outbound message. -/
def segmentsOf (reply : PyStr) : List PyStr :=
  (splitOnL reply botbrT).filterMap
    (fun r => if r.length = 0 || isSpaceL r then none else some (stripL r))

/-- Lines 226-278: everything after the model call returns (or raises) for
one batch, given the batch snapshot `batch` whose rendering was built at
line 221 *before* the suspension point.  Returns the new state and the
outbound messages in order.
* failure: the `except` arm — state untouched, one failure message;
* success: append the user turn (line 238), clear `past_events`
  (line 239), split off reasoning (line 241), choose the out-of-band
  reasoning field over the extracted one with Python `or` (lines 244-247),
  possibly emit reasoning (249-250); then `assert reply is not None`
  (line 252) — when `content` was `None` this raises *after* the user turn
  was appended and the `except` arm sends one failure message (the `str`
  of a bare `AssertionError` is empty); otherwise send the segments and
  append the full unsplit reply as the assistant turn (lines 269-274). -/
def apply_response (cfg : Config) (st : GroupState) (batch : List RawEvent)
    (res : ModelResult) : GroupState × List PyStr :=
  match res with
  | .failure e => (st, [failMsgText e])
  | .success content rf =>
    let st1 := { st with
      history := dequeAppend cfg.history_size st.history
        ⟨"user", joinL [','] batch⟩
      past_events := [] }
    let pr := pop_reasoning_content content
    let reasoning := pyOr rf pr.2
    let out1 := reasoningOut st reasoning
    match pr.1 with
    | none => (st1, out1 ++ [failMsgText []])
    | some reply =>
      ({ st1 with
          history := dequeAppend cfg.history_size st1.history
            ⟨"assistant", reply⟩ },
       out1 ++ segmentsOf reply)

/-- The `while not state.queue.empty()` loop of `process_messages`
(lines 190-282), with the queue passed explicitly (it always equals
`st.queue`) and the successive model-call outcomes supplied by `results`
(`headD` default is irrelevant: the call always produces an outcome).
Each iteration pops one event (line 191), breaks without contacting the
model when `past_events` is empty (lines 217-218), otherwise runs one
batch; on loop exit `processing` is reset (line 282). -/
def process_messages_loop (cfg : Config) :
    List ModelResult → List RawEvent → GroupState → GroupState × List PyStr
  | _, [], st => ({ st with queue := [], processing := false }, [])
  | results, _ :: rest, st =>
    let st0 := { st with queue := rest }
    if st0.past_events.isEmpty then
      ({ st0 with processing := false }, [])
    else
      let step := apply_response cfg st0 st0.past_events
        (results.headD (.failure []))
      let cont := process_messages_loop cfg results.tail rest step.1
      (cont.1, step.2 ++ cont.2)

/-- `process_messages` (lines 176-282): one Group Worker activation. -/
def process_messages (cfg : Config) (results : List ModelResult)
    (st : GroupState) : GroupState × List PyStr :=
  process_messages_loop cfg results st.queue st

/-! ## Snapshot Manager (`save_state`, lines 372-388, and `load_state`,
lines 391-408) -/

/-- The per-group record written to `llmchat_state.json` (lines 375-384):
`preset`, `history`, `last_active`, `group_prompt`,
`output_reasoning_content`.  The live queue and the `processing` flag are
not persisted. -/
structure SavedState where
  preset : String
  history : List Turn
  last_active : Nat
  group_prompt : Option PyStr
  output_reasoning_content : Bool
deriving DecidableEq, Repr

/-- `save_state` (lines 372-388), per group. -/
def save_state (st : GroupState) : SavedState :=
  { preset := st.preset_name
    history := st.history
    last_active := st.last_active
    group_prompt := st.group_prompt
    output_reasoning_content := st.output_reasoning_content }

/-- `load_state` (lines 391-408), per group: a fresh `GroupState()` whose
persisted fields are overwritten; the history is rehydrated through
`deque(..., maxlen=history_size)`, which keeps the last `history_size`
turns. -/
def load_state (cfg : Config) (d : SavedState) : GroupState :=
  { initGroupState cfg with
      preset_name := d.preset
      history := dequeInit cfg.history_size d.history
      last_active := d.last_active
      group_prompt := d.group_prompt
      output_reasoning_content := d.output_reasoning_content }

/-! ## Sequential traces: inbound submissions and worker activations -/

/-- One externally triggered step of the per-group pipeline: either an
inbound group message (run through `is_triggered` + `handle_message`) or a
Group Worker activation whose successive model outcomes are `results`. -/
inductive Act where
  | sub (ev : RawEvent) (tome rnd : Bool)
  | work (results : List ModelResult)

/-- Apply one `Act` to a group's state. -/
def applyAct (cfg : Config) (st : GroupState) : Act → GroupState
  | .sub ev t r => (submit cfg st ev t r).1
  | .work rs => (process_messages cfg rs st).1

/-- Run a sequence of steps from a state. -/
def runActs (cfg : Config) (st : GroupState) (acts : List Act) : GroupState :=
  acts.foldl (applyAct cfg) st

/-- No two consecutive turns share a role. -/
def alternates : List Turn → Bool
  | [] => true
  | [_] => true
  | a :: b :: rest => (a.role != b.role) && alternates (b :: rest)

/-- A model outcome whose success carries actual content (the
`assert reply is not None` at line 252 passes). -/
def goodResult : ModelResult → Bool
  | .success none _ => false
  | _ => true

/-- An `Act` all of whose model outcomes carry content on success. -/
def goodAct : Act → Bool
  | .sub _ _ _ => true
  | .work rs => rs.all goodResult

/-! ## Interleaved scheduling model (single-flight, claim about the
dispatch race)

A worker suspends only at the model call (`await ... create`; the
subsequent sends only emit messages and never touch `processing`, the
queue, or spawn decisions, so the post-call code is modelled as one
resumption step).  `Sys` tracks the set of live worker tasks for one
group; a worker is `top` when it is at the `while` check and `awaiting`
when suspended in the model call, carrying the `past_events` snapshot
whose rendering was built at line 221. -/

inductive WPhase where
  | top
  | awaiting (batch : List RawEvent)
deriving DecidableEq, Repr

/-- One group's state plus its live worker tasks. -/
structure Sys where
  st : GroupState
  workers : List WPhase
deriving DecidableEq, Repr

/-- Fresh group, no worker. -/
def initSys (cfg : Config) : Sys := ⟨initGroupState cfg, []⟩

/-- Atomic scheduler actions: an inbound submission, worker `i` executing
the loop head (exit / break / issue the model call), or worker `i`
resuming from the model call with outcome `res`. -/
inductive SysAct where
  | subA (ev : RawEvent) (tome rnd : Bool)
  | topA (i : Nat)
  | resumeA (i : Nat) (res : ModelResult)

/-- One atomic scheduling step.  Actions naming a worker in the wrong
phase do not occur in any real schedule and are no-ops. -/
def sysStep (cfg : Config) (s : Sys) : SysAct → Sys
  | .subA ev t r =>
    let sub := submit cfg s.st ev t r
    ⟨sub.1, if sub.2 then s.workers ++ [.top] else s.workers⟩
  | .topA i =>
    match s.workers[i]? with
    | some .top =>
      match s.st.queue with
      | [] => ⟨{ s.st with processing := false }, s.workers.eraseIdx i⟩
      | _ :: rest =>
        let st0 := { s.st with queue := rest }
        if st0.past_events.isEmpty then
          ⟨{ st0 with processing := false }, s.workers.eraseIdx i⟩
        else
          ⟨st0, s.workers.set i (.awaiting st0.past_events)⟩
    | _ => s
  | .resumeA i res =>
    match s.workers[i]? with
    | some (.awaiting batch) =>
      ⟨(apply_response cfg s.st batch res).1, s.workers.set i .top⟩
    | _ => s

/-- Run a schedule. -/
def runSys (cfg : Config) (s : Sys) (acts : List SysAct) : Sys :=
  acts.foldl (sysStep cfg) s

/-- Single-flight invariant: at most one live worker, and the
`processing` flag is set exactly while one is live. -/
def sysInv (s : Sys) : Bool :=
  decide (s.workers.length ≤ 1) && (s.st.processing == !s.workers.isEmpty)

/-- A burst of concurrent submissions, all addressed to the bot: in
asyncio their handlers all run before the worker task first runs. -/
def burstActs (evs : List RawEvent) : List SysAct :=
  evs.map (fun e => SysAct.subA e true false)

/-- History invariant maintained by the worker: turns alternate and the
last stored turn (if any) is not a user turn. -/
def histInv (h : List Turn) : Bool :=
  alternates h && h.getLast?.all (fun t => t.role != "user")

/-- The two bounds the deques enforce: `history.length` at most N and
`past_events.length` at most M. -/
def boundsOK (cfg : Config) (st : GroupState) : Prop :=
  st.history.length ≤ cfg.history_size
    ∧ st.past_events.length ≤ cfg.past_events_size

/-! ## Concrete instances used by counterexamples and witnesses -/

/-- A concrete plugin configuration (default preset, N = 10, M = 20). -/
def cfgX : Config := ⟨"default", 10, 20⟩

/-- A concrete small configuration (N = 2, M = 2), used to exercise
eviction. -/
def cfgY : Config := ⟨"default", 2, 2⟩

/-- A concrete mid-processing group state. -/
def stX : GroupState :=
  { initGroupState cfgX with
      queue := ["q1".toList]
      past_events := ["p1".toList]
      processing := true }

/-- A concrete group state whose preset is the `"off"` sentinel. -/
def stOff : GroupState :=
  { initGroupState cfgX with preset_name := "off" }

/-- A whole inbound stream: fold `submit` over a list of (event, tome,
rnd) triples, recording for each whether a worker was spawned. -/
def submitSeq (cfg : Config) (st : GroupState) :
    List (RawEvent × Bool × Bool) → GroupState × List Bool
  | [] => (st, [])
  | (e, t, r) :: rest =>
    let s1 := submit cfg st e t r
    let s2 := submitSeq cfg s1.1 rest
    (s2.1, s1.2 :: s2.2)

/-! ## Helper lemmas -/

theorem isPrefixOf_append_self (l r : List Char) :
    l.isPrefixOf (l ++ r) = true := by
  induction l with
  | nil => rw [List.nil_append]; cases r <;> rfl
  | cons a as ih => simp [List.isPrefixOf, ih]

theorem splitFirst_self (pat u : PyStr) (h : pat ≠ []) :
    splitFirst pat (pat ++ u) = some ([], u) := by
  match pat, h with
  | c :: p', _ =>
    have hp : (c :: p').isPrefixOf ((c :: p') ++ u) = true :=
      isPrefixOf_append_self _ _
    have hd : ((c :: p') ++ u).drop (c :: p').length = u := List.drop_left _ _
    show splitFirst (c :: p') ((c :: p') ++ u) = some ([], u)
    rw [List.cons_append] at hp hd ⊢
    rw [splitFirst]
    simp [hp, hd]

theorem dequeAppend_length (n : Nat) (l : List α) (x : α) :
    (dequeAppend n l x).length ≤ n := by
  simp only [dequeAppend, List.length_drop, List.length_append,
    List.length_cons, List.length_nil]
  omega

theorem dequeAppend_of_lt (n : Nat) (l : List α) (x : α)
    (h : l.length < n) : dequeAppend n l x = l ++ [x] := by
  simp only [dequeAppend]
  have : l.length + 1 - n = 0 := by omega
  simp [this]

theorem dequeAppend_zero (l : List α) (x : α) : dequeAppend 0 l x = [] := by
  simp [dequeAppend]

theorem dequeAppend_eq_drop_concat (n : Nat) (l : List α) (x : α)
    (h : 1 ≤ n) : dequeAppend n l x = l.drop (l.length + 1 - n) ++ [x] := by
  simp only [dequeAppend]
  rw [List.drop_append_eq_append_drop]
  have : l.length + 1 - n - l.length = 0 := by omega
  simp [this]

theorem dequeAppend_full (n : Nat) (l : List α) (x : α)
    (h1 : 1 ≤ n) (h2 : l.length = n) :
    dequeAppend n l x = l.drop 1 ++ [x] := by
  rw [dequeAppend_eq_drop_concat n l x h1, h2]
  have : n + 1 - n = 1 := by omega
  rw [this]

theorem getLast?_dequeAppend (n : Nat) (l : List α) (x : α) (h : 1 ≤ n) :
    (dequeAppend n l x).getLast? = some x := by
  rw [dequeAppend_eq_drop_concat n l x h]
  exact List.getLast?_concat _

theorem alternates_tail (a : Turn) (l : List Turn)
    (h : alternates (a :: l) = true) : alternates l = true := by
  cases l with
  | nil => rfl
  | cons b r =>
    rw [alternates] at h
    exact (Bool.and_eq_true ..).mp h |>.2

theorem alternates_drop (k : Nat) (l : List Turn)
    (h : alternates l = true) : alternates (l.drop k) = true := by
  induction l generalizing k with
  | nil => simpa using h
  | cons a r ih =>
    cases k with
    | zero => simpa using h
    | succ k' => exact ih k' (alternates_tail a r h)

theorem getLast?_drop_of_ne_nil (k : Nat) (l : List α)
    (h : l.drop k ≠ []) : (l.drop k).getLast? = l.getLast? := by
  induction l generalizing k with
  | nil => simp at h
  | cons a r ih =>
    cases k with
    | zero => rfl
    | succ k' =>
      simp only [List.drop_succ_cons] at h ⊢
      rw [ih k' h]
      have hr : r ≠ [] := by
        intro hc; rw [hc] at h; simp at h
      match r, hr with
      | b :: r', _ => rw [List.getLast?_cons_cons]

theorem alternates_concat (l : List Turn) (x : Turn)
    (h : alternates l = true)
    (hl : ∀ t, l.getLast? = some t → t.role ≠ x.role) :
    alternates (l ++ [x]) = true := by
  induction l with
  | nil => rfl
  | cons a r ih =>
    cases r with
    | nil =>
      have : a.role ≠ x.role := hl a rfl
      simp [alternates, this]
    | cons b r' =>
      rw [alternates] at h
      have h' := (Bool.and_eq_true ..).mp h
      have hl' : ∀ t, (b :: r').getLast? = some t → t.role ≠ x.role := by
        intro t ht
        exact hl t (by rw [List.getLast?_cons_cons]; exact ht)
      have := ih h'.2 hl'
      simp only [List.cons_append, alternates, Bool.and_eq_true]
      exact ⟨h'.1, by simpa using this⟩

theorem histInv_append_pair (n : Nat) (h : List Turn) (cu ca : PyStr)
    (hh : histInv h = true) :
    histInv (dequeAppend n (dequeAppend n h ⟨"user", cu⟩)
      ⟨"assistant", ca⟩) = true := by
  rcases Nat.eq_zero_or_pos n with hn | hn
  · subst hn
    simp [dequeAppend_zero, histInv, alternates]
  · have h1 := (Bool.and_eq_true ..).mp hh
    have halt : alternates h = true := h1.1
    have hlast : h.getLast?.all (fun t => t.role != "user") = true := h1.2
    -- first append: the user turn
    have e1 := dequeAppend_eq_drop_concat n h ⟨"user", cu⟩ hn
    have alt1 : alternates (dequeAppend n h ⟨"user", cu⟩) = true := by
      rw [e1]
      apply alternates_concat _ _ (alternates_drop _ _ halt)
      intro t ht
      have hne : h.drop (h.length + 1 - n) ≠ [] := by
        intro hc; rw [hc] at ht; simp at ht
      rw [getLast?_drop_of_ne_nil _ _ hne] at ht
      rw [ht] at hlast
      simpa using hlast
    have last1 : (dequeAppend n h ⟨"user", cu⟩).getLast?
        = some ⟨"user", cu⟩ := getLast?_dequeAppend n h _ hn
    -- second append: the assistant turn
    have e2 := dequeAppend_eq_drop_concat n (dequeAppend n h ⟨"user", cu⟩)
      ⟨"assistant", ca⟩ hn
    have alt2 : alternates (dequeAppend n (dequeAppend n h ⟨"user", cu⟩)
        ⟨"assistant", ca⟩) = true := by
      rw [e2]
      apply alternates_concat _ _ (alternates_drop _ _ alt1)
      intro t ht
      have hne : (dequeAppend n h ⟨"user", cu⟩).drop
          ((dequeAppend n h ⟨"user", cu⟩).length + 1 - n) ≠ [] := by
        intro hc; rw [hc] at ht; simp at ht
      rw [getLast?_drop_of_ne_nil _ _ hne, last1] at ht
      cases ht
      simp
    have last2 : (dequeAppend n (dequeAppend n h ⟨"user", cu⟩)
        ⟨"assistant", ca⟩).getLast? = some ⟨"assistant", ca⟩ :=
      getLast?_dequeAppend n _ _ hn
    rw [histInv, alt2, last2]
    simp

theorem pop_fst_isSome (c : PyStr) :
    ∃ r, (pop_reasoning_content (some c)).1 = some r := by
  rw [pop_reasoning_content]
  cases matchThink c with
  | none => exact ⟨c, rfl⟩
  | some t =>
    by_cases ht : t != []
    · exact ⟨stripL (removeAll c t), by simp [ht]⟩
    · exact ⟨c, by simp [ht]⟩

theorem submit_history (cfg : Config) (st : GroupState) (ev : RawEvent)
    (t r : Bool) : (submit cfg st ev t r).1.history = st.history := by
  rw [submit, is_triggered]
  split
  · rfl
  · dsimp only
    split
    · rw [handle_message]
      split <;> rfl
    · rfl

theorem submit_preset (cfg : Config) (st : GroupState) (ev : RawEvent)
    (t r : Bool) : (submit cfg st ev t r).1.preset_name = st.preset_name := by
  rw [submit, is_triggered]
  split
  · rfl
  · dsimp only
    split
    · rw [handle_message]
      split <;> rfl
    · rfl

theorem apply_response_processing (cfg : Config) (st : GroupState)
    (batch : List RawEvent) (res : ModelResult) :
    (apply_response cfg st batch res).1.processing = st.processing := by
  cases res with
  | failure e => rfl
  | success content rf =>
    rw [apply_response]
    dsimp only
    split <;> rfl

theorem apply_response_queue (cfg : Config) (st : GroupState)
    (batch : List RawEvent) (res : ModelResult) :
    (apply_response cfg st batch res).1.queue = st.queue := by
  cases res with
  | failure e => rfl
  | success content rf =>
    rw [apply_response]
    dsimp only
    split <;> rfl

theorem apply_response_histInv (cfg : Config) (st : GroupState)
    (batch : List RawEvent) (res : ModelResult)
    (hgood : goodResult res = true)
    (hh : histInv st.history = true) :
    histInv (apply_response cfg st batch res).1.history = true := by
  cases res with
  | failure e => exact hh
  | success content rf =>
    cases content with
    | none => exact absurd hgood (by simp [goodResult])
    | some c =>
      obtain ⟨r, hr⟩ := pop_fst_isSome c
      rw [apply_response]
      dsimp only
      rw [hr]
      dsimp only
      exact histInv_append_pair _ _ _ _ hh

theorem loop_histInv (cfg : Config) (results : List ModelResult)
    (q : List RawEvent) (st : GroupState)
    (hgood : results.all goodResult = true)
    (hh : histInv st.history = true) :
    histInv (process_messages_loop cfg results q st).1.history = true := by
  induction q generalizing results st with
  | nil => exact hh
  | cons e rest ih =>
    rw [process_messages_loop]
    dsimp only
    split
    · exact hh
    · have hgood' : results.tail.all goodResult = true := by
        cases results with
        | nil => exact hgood
        | cons r rs =>
          simp only [List.all_cons, Bool.and_eq_true] at hgood
          simpa using hgood.2
      have hres : goodResult (results.headD (.failure [])) = true := by
        cases results with
        | nil => rfl
        | cons r rs =>
          simp only [List.all_cons, Bool.and_eq_true] at hgood
          simpa using hgood.1
      exact ih results.tail _ hgood'
        (apply_response_histInv _ _ _ _ hres hh)

theorem submit_spawn (cfg : Config) (st : GroupState) (ev : RawEvent)
    (t r : Bool) :
    ((submit cfg st ev t r).2 = true →
      st.processing = false ∧ (submit cfg st ev t r).1.processing = true)
    ∧ ((submit cfg st ev t r).2 = false →
      (submit cfg st ev t r).1.processing = st.processing) := by
  rw [submit, is_triggered]
  split
  · exact ⟨fun h => absurd h (by simp), fun _ => rfl⟩
  · dsimp only
    split
    · rw [handle_message]
      dsimp only
      split
      next hproc => exact ⟨fun h => absurd h (by simp), fun _ => rfl⟩
      next hproc =>
        exact ⟨fun _ => ⟨by simpa using hproc, rfl⟩, fun h => by simp at h⟩
    · exact ⟨fun h => absurd h (by simp), fun _ => rfl⟩

theorem sysInv_step (cfg : Config) (s : Sys) (a : SysAct)
    (h : sysInv s = true) : sysInv (sysStep cfg s a) = true := by
  simp only [sysInv, Bool.and_eq_true, decide_eq_true_eq, beq_iff_eq] at h
  obtain ⟨hlen, hproc⟩ := h
  cases a with
  | subA ev t r =>
    rw [sysStep]
    by_cases hsp : (submit cfg s.st ev t r).2 = true
    · obtain ⟨h1, h2⟩ := (submit_spawn cfg s.st ev t r).1 hsp
      have hw : s.workers = [] := by
        rw [h1] at hproc
        cases hwv : s.workers with
        | nil => rfl
        | cons a l => rw [hwv] at hproc; simp at hproc
      simp [sysInv, hsp, hw, h2]
    · have hsp' : (submit cfg s.st ev t r).2 = false := by
        simpa using hsp
      have h2 := (submit_spawn cfg s.st ev t r).2 hsp'
      simp [sysInv, hsp', h2, hlen, hproc]
  | topA i =>
    rw [sysStep]
    cases hw : s.workers[i]? with
    | none => simp [sysInv, hlen, hproc]
    | some ph =>
      have hi : i < s.workers.length := by
        by_contra hc
        rw [List.getElem?_eq_none (by omega)] at hw
        cases hw
      have hlen1 : s.workers.length = 1 := by omega
      have hne : s.workers ≠ [] := by
        intro hc; rw [hc] at hlen1; cases hlen1
      have hptrue : s.st.processing = true := by
        rw [hproc]
        cases hwv : s.workers with
        | nil => exact absurd hwv hne
        | cons a l => simp
      have herase : s.workers.eraseIdx i = [] := by
        apply List.eq_nil_of_length_eq_zero
        rw [List.length_eraseIdx, if_pos hi]
        omega
      cases ph with
      | top =>
        cases hq : s.st.queue with
        | nil => simp [sysInv, herase]
        | cons e rest =>
          dsimp only
          split
          · simp [sysInv, herase]
          · have hlset : (s.workers.set i
                (WPhase.awaiting s.st.past_events)).length = 1 := by
              rw [List.length_set]; exact hlen1
            have hsne : s.workers.set i
                (WPhase.awaiting s.st.past_events) ≠ [] := by
              intro hc
              rw [hc] at hlset; cases hlset
            simp [sysInv, hlset, hptrue, List.isEmpty_iff, hsne]
      | awaiting batch => simp [sysInv, hlen, hproc]
  | resumeA i res =>
    rw [sysStep]
    cases hw : s.workers[i]? with
    | none => simp [sysInv, hlen, hproc]
    | some ph =>
      have hi : i < s.workers.length := by
        by_contra hc
        rw [List.getElem?_eq_none (by omega)] at hw
        cases hw
      have hlen1 : s.workers.length = 1 := by omega
      have hne : s.workers ≠ [] := by
        intro hc; rw [hc] at hlen1; cases hlen1
      have hptrue : s.st.processing = true := by
        rw [hproc]
        cases hwv : s.workers with
        | nil => exact absurd hwv hne
        | cons a l => simp
      cases ph with
      | top => simp [sysInv, hlen, hproc]
      | awaiting batch =>
        have hlset : (s.workers.set i WPhase.top).length = 1 := by
          rw [List.length_set]; exact hlen1
        have hsne : s.workers.set i WPhase.top ≠ [] := by
          intro hc; rw [hc] at hlset; cases hlset
        simp [sysInv, hlset, apply_response_processing, hptrue,
          List.isEmpty_iff, hsne]

theorem sysInv_runSys (cfg : Config) (acts : List SysAct) (s : Sys)
    (h : sysInv s = true) : sysInv (runSys cfg s acts) = true := by
  induction acts generalizing s with
  | nil => exact h
  | cons a rest ih => exact ih _ (sysInv_step cfg s a h)

theorem submit_triggered_busy (cfg : Config) (st : GroupState)
    (ev : RawEvent) (hpre : st.preset_name ≠ "off")
    (hproc : st.processing = true) :
    submit cfg st ev true false =
      ({ st with
          queue := st.queue ++ [ev]
          past_events := dequeAppend cfg.past_events_size st.past_events ev },
       false) := by
  rw [submit, is_triggered, if_neg hpre]
  dsimp only
  rw [if_pos (show ((true || false) = true) from rfl), handle_message]
  dsimp only
  rw [if_pos hproc]

theorem submit_triggered_idle (cfg : Config) (st : GroupState)
    (ev : RawEvent) (hpre : st.preset_name ≠ "off")
    (hproc : st.processing = false) :
    submit cfg st ev true false =
      ({ st with
          queue := st.queue ++ [ev]
          past_events := dequeAppend cfg.past_events_size st.past_events ev
          processing := true },
       true) := by
  rw [submit, is_triggered, if_neg hpre]
  dsimp only
  rw [if_pos (show ((true || false) = true) from rfl), handle_message]
  dsimp only
  rw [if_neg (by simp [hproc])]

theorem runSys_burst_busy (cfg : Config) (evs : List RawEvent)
    (st : GroupState) (ws : List WPhase)
    (hpre : st.preset_name ≠ "off") (hproc : st.processing = true)
    (hlen : st.past_events.length + evs.length ≤ cfg.past_events_size) :
    runSys cfg ⟨st, ws⟩ (burstActs evs) =
      ⟨{ st with
          queue := st.queue ++ evs
          past_events := st.past_events ++ evs }, ws⟩ := by
  induction evs generalizing st with
  | nil => simp [runSys, burstActs]
  | cons e evs' ih =>
    have hlt : st.past_events.length < cfg.past_events_size := by
      simp only [List.length_cons] at hlen
      omega
    have hstep : sysStep cfg ⟨st, ws⟩ (SysAct.subA e true false) =
        ⟨{ st with
            queue := st.queue ++ [e]
            past_events := st.past_events ++ [e] }, ws⟩ := by
      rw [sysStep, submit_triggered_busy cfg st e hpre hproc,
        dequeAppend_of_lt _ _ _ hlt]
      rfl
    have hre : runSys cfg ⟨st, ws⟩ (burstActs (e :: evs')) =
        runSys cfg (sysStep cfg ⟨st, ws⟩ (SysAct.subA e true false))
          (burstActs evs') := by
      simp [burstActs, runSys]
    rw [hre, hstep, ih { st with
        queue := st.queue ++ [e]
        past_events := st.past_events ++ [e] } hpre hproc (by
      simp only [List.length_append, List.length_cons, List.length_nil]
        at hlen ⊢
      omega)]
    simp

theorem runSys_burst_from_init (cfg : Config) (e : RawEvent)
    (evs : List RawEvent) (hoff : cfg.default_preset ≠ "off")
    (hlen : evs.length + 1 ≤ cfg.past_events_size) :
    runSys cfg (initSys cfg) (burstActs (e :: evs)) =
      ⟨{ initGroupState cfg with
          queue := e :: evs
          past_events := e :: evs
          processing := true }, [WPhase.top]⟩ := by
  have hM : 0 < cfg.past_events_size := by omega
  have hde : dequeAppend cfg.past_events_size
      (initGroupState cfg).past_events e = [e] := by
    show dequeAppend cfg.past_events_size [] e = [e]
    exact dequeAppend_of_lt _ _ _ (by simpa using hM)
  have hsub := submit_triggered_idle cfg (initGroupState cfg) e hoff rfl
  rw [hde] at hsub
  have hstep : sysStep cfg (initSys cfg) (SysAct.subA e true false) =
      ⟨{ initGroupState cfg with
          queue := [e]
          past_events := [e]
          processing := true }, [WPhase.top]⟩ := by
    rw [sysStep, show (initSys cfg).st = initGroupState cfg from rfl, hsub]
    rfl
  have hre : runSys cfg (initSys cfg) (burstActs (e :: evs)) =
      runSys cfg (sysStep cfg (initSys cfg) (SysAct.subA e true false))
        (burstActs evs) := by
    simp [burstActs, runSys]
  rw [hre, hstep, runSys_burst_busy cfg evs _ _ hoff rfl (by simp; omega)]
  simp

/-! ## Claims -/

/-- Claim C1, counterexample: on input
`"<think>plan</think>Hello<botbr>World"` the code returns visible text
`"<think></think>Hello<botbr>World"` (the `replace` removes the inner
text `"plan"`, leaving the tags in place), not the claimed
`"Hello<botbr>World"`. -/
theorem c1_counterexample :
    pop_reasoning_content
        (some ("<think>plan</think>Hello<botbr>World".toList))
      = (some ("<think></think>Hello<botbr>World".toList),
         some ("plan".toList))
    ∧ (some ("<think></think>Hello<botbr>World".toList) : Option PyStr)
      ≠ some ("Hello<botbr>World".toList) := by
  constructor
  · decide
  · decide

/-- Claim C1 (amended): for every response text whose leading
`<think>...</think>` block has nonempty inner text `T`, the Reply
Splitter returns `T` (trimmed) as the reasoning candidate, and the
visible text is the original text with every occurrence of the inner
text `T` removed (the `<think>` and `</think>` tags themselves remain)
and then stripped of surrounding whitespace. -/
theorem c1_inner_text_removed (c T : PyStr)
    (hm : matchThink c = some T) (hT : T ≠ []) :
    pop_reasoning_content (some c)
      = (some (stripL (removeAll c T)), some (stripL T)) := by
  rw [pop_reasoning_content, hm]
  dsimp only
  rw [if_pos (show (T != []) = true by simpa using hT)]

/-- Claim C1 witness: the amended statement evaluated on the example
input. -/
theorem c1_inner_text_removed_witness :
    matchThink ("<think>plan</think>Hello<botbr>World".toList)
      = some ("plan".toList)
    ∧ ("plan".toList : PyStr) ≠ []
    ∧ pop_reasoning_content
        (some ("<think>plan</think>Hello<botbr>World".toList))
      = (some (stripL (removeAll
          ("<think>plan</think>Hello<botbr>World".toList)
          ("plan".toList))),
         some (stripL ("plan".toList))) :=
  ⟨by decide, by decide,
    c1_inner_text_removed _ _ (by decide) (by decide)⟩

/-- Claim C2, counterexample: a successful model call whose response
content is `None` appends the user turn, then fails the
`assert reply is not None` *after* that append; the next successful
batch leaves two consecutive user turns in history. -/
theorem c2_counterexample :
    alternates ((runActs cfgX (initGroupState cfgX)
      [Act.sub ("e1".toList) true false,
       Act.work [ModelResult.success none none],
       Act.sub ("e2".toList) true false,
       Act.work [ModelResult.success (some ("hi".toList)) none]]).history)
      = false := by decide

/-- Claim C2 (amended): starting from initialization, for every sequence
of inbound submissions and Group Worker activations in which every
successful model outcome carries non-`None` content, the stored history
turns strictly alternate roles (never two consecutive turns with the
same role). -/
theorem c2_alternation (cfg : Config) (acts : List Act)
    (h : acts.all goodAct = true) :
    alternates ((runActs cfg (initGroupState cfg) acts).history) = true := by
  have main : ∀ (as : List Act) (st : GroupState), as.all goodAct = true →
      histInv st.history = true →
      histInv (runActs cfg st as).history = true := by
    intro as
    induction as with
    | nil => intro st _ hh; exact hh
    | cons a rest ih =>
      intro st hall hh
      simp only [List.all_cons, Bool.and_eq_true] at hall
      have hone : histInv (applyAct cfg st a).history = true := by
        cases a with
        | sub ev t r =>
          show histInv (submit cfg st ev t r).1.history = true
          rw [submit_history]
          exact hh
        | work rs =>
          show histInv (process_messages cfg rs st).1.history = true
          rw [process_messages]
          exact loop_histInv cfg rs _ st (by simpa [goodAct] using hall.1) hh
      have : runActs cfg st (a :: rest) = runActs cfg (applyAct cfg st a) rest :=
        rfl
      rw [this]
      exact ih (applyAct cfg st a) hall.2 hone
  have := main acts (initGroupState cfg) h rfl
  exact ((Bool.and_eq_true ..).mp this).1

/-- Claim C2 witness: a concrete all-successful trace with non-`None`
content yields an alternating history. -/
theorem c2_alternation_witness :
    ([Act.sub ("e1".toList) true false,
      Act.work [ModelResult.success (some ("hi".toList)) none],
      Act.sub ("e2".toList) true false,
      Act.work [ModelResult.success (some ("yo".toList)) none]].all goodAct
      = true)
    ∧ alternates ((runActs cfgX (initGroupState cfgX)
        [Act.sub ("e1".toList) true false,
         Act.work [ModelResult.success (some ("hi".toList)) none],
         Act.sub ("e2".toList) true false,
         Act.work [ModelResult.success (some ("yo".toList)) none]]).history)
      = true :=
  ⟨by decide, c2_alternation cfgX _ (by decide)⟩

/-- Claim C3: when the model call for a batch raises (timeout, transport
failure, or backend error), the worker leaves the whole group state
untouched (history and `past_events` in particular), emits exactly one
outbound failure message, and continues the drain loop on the remaining
queue instead of terminating. -/
theorem c3_failure_isolation (cfg : Config) (st : GroupState)
    (ev : RawEvent) (q : List RawEvent) (e : PyStr)
    (rs : List ModelResult)
    (hq : st.queue = ev :: q) (hp : st.past_events ≠ []) :
    (apply_response cfg st st.past_events (.failure e)).1 = st
    ∧ (apply_response cfg st st.past_events (.failure e)).2
        = [failMsgText e]
    ∧ process_messages cfg (.failure e :: rs) st =
        ((process_messages_loop cfg rs q { st with queue := q }).1,
         failMsgText e
           :: (process_messages_loop cfg rs q { st with queue := q }).2) := by
  refine ⟨rfl, rfl, ?_⟩
  rw [process_messages, hq, process_messages_loop]
  dsimp only
  rw [if_neg (by simpa [List.isEmpty_iff] using hp)]
  rfl

/-- Claim C3 witness: the failure step evaluated on a concrete state. -/
theorem c3_failure_isolation_witness :
    stX.queue = ["q1".toList]
    ∧ stX.past_events ≠ []
    ∧ (apply_response cfgX stX stX.past_events
        (.failure ("err".toList))).1 = stX :=
  ⟨rfl, by decide,
    (c3_failure_isolation cfgX stX ("q1".toList) [] ("err".toList) []
      rfl (by decide)).1⟩

/-- Claim C4: (a) under every interleaving of submissions and worker
steps from initialization, at most one Group Worker is live for the
group and the `processing` flag is set exactly while one is live (the
check-and-set runs atomically, as one `sysStep`); (b) for a burst of K
concurrent submissions to an idle group (all handlers run before the
spawned worker's first step, the asyncio behavior), the single spawned
worker's first model-call batch contains exactly all K submitted events
— no event is lost to the dispatch race. -/
theorem c4_single_flight_drain (cfg : Config) :
    (∀ (acts : List SysAct),
      sysInv (runSys cfg (initSys cfg) acts) = true)
    ∧ (∀ (e : RawEvent) (evs : List RawEvent),
        cfg.default_preset ≠ "off" →
        evs.length + 1 ≤ cfg.past_events_size →
        (runSys cfg (initSys cfg)
            (burstActs (e :: evs) ++ [SysAct.topA 0])).workers
          = [WPhase.awaiting (e :: evs)]) := by
  constructor
  · intro acts
    exact sysInv_runSys cfg acts (initSys cfg) rfl
  · intro e evs hoff hlen
    have hsplit : runSys cfg (initSys cfg)
        (burstActs (e :: evs) ++ [SysAct.topA 0])
        = runSys cfg (runSys cfg (initSys cfg) (burstActs (e :: evs)))
            [SysAct.topA 0] := by
      rw [runSys, runSys, runSys, List.foldl_append]
    rw [hsplit, runSys_burst_from_init cfg e evs hoff hlen]
    rfl

/-- Claim C4 witness: the invariant on a concrete interleaving, and the
burst drain on a concrete two-event burst. -/
theorem c4_single_flight_drain_witness :
    sysInv (runSys cfgX (initSys cfgX)
      [SysAct.subA ("a".toList) true false, SysAct.topA 0,
       SysAct.subA ("b".toList) true false,
       SysAct.resumeA 0 (ModelResult.success (some ("ok".toList)) none),
       SysAct.topA 0]) = true
    ∧ cfgX.default_preset ≠ "off"
    ∧ ([("b".toList)] : List RawEvent).length + 1 ≤ cfgX.past_events_size
    ∧ (runSys cfgX (initSys cfgX)
        (burstActs (("a".toList) :: [("b".toList)]) ++ [SysAct.topA 0])).workers
      = [WPhase.awaiting (("a".toList) :: [("b".toList)])] :=
  ⟨(c4_single_flight_drain cfgX).1 _, by decide, by decide,
    (c4_single_flight_drain cfgX).2 _ _ (by decide) (by decide)⟩

/-- Claim C5: saving a group's state and reloading it reproduces the
history, preset name, group prompt, and reasoning flag exactly (the live
history always satisfies the bound, so the reload-time truncation is the
identity), while the queue and the `processing` flag come back in their
initial empty / false state. -/
theorem c5_snapshot_roundtrip (cfg : Config) (st : GroupState)
    (h : st.history.length ≤ cfg.history_size) :
    (load_state cfg (save_state st)).history = st.history
    ∧ (load_state cfg (save_state st)).preset_name = st.preset_name
    ∧ (load_state cfg (save_state st)).group_prompt = st.group_prompt
    ∧ (load_state cfg (save_state st)).output_reasoning_content
        = st.output_reasoning_content
    ∧ (load_state cfg (save_state st)).queue = []
    ∧ (load_state cfg (save_state st)).processing = false := by
  refine ⟨?_, rfl, rfl, rfl, rfl, rfl⟩
  show dequeInit cfg.history_size st.history = st.history
  rw [dequeInit, Nat.sub_eq_zero_of_le h, List.drop_zero]

/-- Claim C5 witness: the round trip evaluated on a concrete state. -/
theorem c5_snapshot_roundtrip_witness :
    stX.history.length ≤ cfgX.history_size
    ∧ (load_state cfgX (save_state stX)).history = stX.history :=
  ⟨by decide, (c5_snapshot_roundtrip cfgX stX (by decide)).1⟩

theorem apply_response_bounds (cfg : Config) (st : GroupState)
    (batch : List RawEvent) (res : ModelResult)
    (h : boundsOK cfg st) :
    boundsOK cfg (apply_response cfg st batch res).1 := by
  cases res with
  | failure e => exact h
  | success content rf =>
    rw [apply_response]
    dsimp only
    split
    · exact ⟨dequeAppend_length _ _ _, by simp⟩
    · exact ⟨dequeAppend_length _ _ _, by simp⟩

theorem submit_bounds (cfg : Config) (st : GroupState) (ev : RawEvent)
    (t r : Bool) (h : boundsOK cfg st) :
    boundsOK cfg (submit cfg st ev t r).1 := by
  rw [submit, is_triggered]
  split
  · exact h
  · dsimp only
    split
    · rw [handle_message]
      dsimp only
      split
      · exact ⟨h.1, dequeAppend_length _ _ _⟩
      · exact ⟨h.1, dequeAppend_length _ _ _⟩
    · exact ⟨h.1, dequeAppend_length _ _ _⟩

theorem loop_bounds (cfg : Config) (results : List ModelResult)
    (q : List RawEvent) (st : GroupState) (h : boundsOK cfg st) :
    boundsOK cfg (process_messages_loop cfg results q st).1 := by
  induction q generalizing results st with
  | nil => exact h
  | cons e rest ih =>
    rw [process_messages_loop]
    dsimp only
    split
    · exact h
    · exact ih results.tail _ (apply_response_bounds cfg _ _ _ h)

/-- Claim C6: the deque bounds hold after every insertion (regardless of
the prior length), the oldest element is the one evicted when a full
deque is appended to, reloading a snapshot re-applies the history bound
by keeping only the newest N turns, and both the dispatcher path and a
whole worker activation preserve the bounds. -/
theorem c6_bounds (cfg : Config) :
    (∀ (l : List Turn) (x : Turn),
      (dequeAppend cfg.history_size l x).length ≤ cfg.history_size)
    ∧ (∀ (l : List RawEvent) (x : RawEvent),
      (dequeAppend cfg.past_events_size l x).length
        ≤ cfg.past_events_size)
    ∧ (∀ (l : List Turn) (x : Turn), 1 ≤ cfg.history_size →
      l.length = cfg.history_size →
      dequeAppend cfg.history_size l x = l.drop 1 ++ [x])
    ∧ (∀ d : SavedState,
      (load_state cfg d).history.length ≤ cfg.history_size
      ∧ (load_state cfg d).history
          = d.history.drop (d.history.length - cfg.history_size))
    ∧ (∀ (st : GroupState) (ev : RawEvent) (t r : Bool),
      boundsOK cfg st → boundsOK cfg (submit cfg st ev t r).1)
    ∧ (∀ (st : GroupState) (rs : List ModelResult),
      boundsOK cfg st → boundsOK cfg (process_messages cfg rs st).1) := by
  refine ⟨fun l x => dequeAppend_length _ _ _,
    fun l x => dequeAppend_length _ _ _,
    fun l x h1 h2 => dequeAppend_full _ _ _ h1 h2,
    fun d => ⟨?_, rfl⟩,
    fun st ev t r h => submit_bounds cfg st ev t r h,
    fun st rs h => loop_bounds cfg rs st.queue st h⟩
  show (dequeInit cfg.history_size d.history).length ≤ cfg.history_size
  rw [dequeInit]
  simp only [List.length_drop]
  omega

/-- Claim C6 witness: the bound and eviction facts evaluated on concrete
small deques and states. -/
theorem c6_bounds_witness :
    (dequeAppend cfgY.history_size [(⟨"user", "u".toList⟩ : Turn)]
      ⟨"assistant", "a".toList⟩).length ≤ cfgY.history_size
    ∧ 1 ≤ cfgY.history_size
    ∧ ([(⟨"user", "u".toList⟩ : Turn), ⟨"assistant", "a".toList⟩]).length
        = cfgY.history_size
    ∧ dequeAppend cfgY.history_size
        [(⟨"user", "u".toList⟩ : Turn), ⟨"assistant", "a".toList⟩]
        ⟨"user", "v".toList⟩
      = [(⟨"user", "u".toList⟩ : Turn),
         ⟨"assistant", "a".toList⟩].drop 1 ++ [⟨"user", "v".toList⟩]
    ∧ boundsOK cfgY (initGroupState cfgY)
    ∧ boundsOK cfgY (submit cfgY (initGroupState cfgY) ("x".toList)
        true false).1 :=
  ⟨(c6_bounds cfgY).1 _ _, by decide, by decide,
    (c6_bounds cfgY).2.2.1 _ _ (by decide) (by decide),
    ⟨by decide, by decide⟩,
    (c6_bounds cfgY).2.2.2.2.1 _ _ true false ⟨by decide, by decide⟩⟩

/-- Claim C7: on a successful batch, the assistant turn appended to the
history is the full visible reply after reasoning extraction and
*before* splitting on `"<botbr>"`; the delimiter segmentation shows up
only in the outbound messages. -/
theorem c7_history_stores_unsplit_reply (cfg : Config) (st : GroupState)
    (batch : List RawEvent) (c : PyStr) (rf : Option PyStr)
    (r : PyStr) (m : Option PyStr)
    (hN : 1 ≤ cfg.history_size)
    (hpop : pop_reasoning_content (some c) = (some r, m)) :
    (apply_response cfg st batch
        (.success (some c) rf)).1.history.getLast?
      = some ⟨"assistant", r⟩
    ∧ (apply_response cfg st batch (.success (some c) rf)).2
      = reasoningOut st (pyOr rf m) ++ segmentsOf r := by
  rw [apply_response]
  dsimp only
  rw [hpop]
  dsimp only
  exact ⟨getLast?_dequeAppend _ _ _ hN, rfl⟩

/-- Claim C7 witness: a reply containing the delimiter is stored whole
in the history while being split for delivery. -/
theorem c7_history_stores_unsplit_reply_witness :
    1 ≤ cfgX.history_size
    ∧ pop_reasoning_content (some ("A<botbr>B".toList))
        = (some ("A<botbr>B".toList), none)
    ∧ (apply_response cfgX (initGroupState cfgX) []
        (.success (some ("A<botbr>B".toList)) none)).1.history.getLast?
      = some ⟨"assistant", "A<botbr>B".toList⟩ :=
  ⟨by decide, by decide,
    (c7_history_stores_unsplit_reply cfgX (initGroupState cfgX) []
      ("A<botbr>B".toList) none ("A<botbr>B".toList) none
      (by decide) (by decide)).1⟩

/-- Claim C8: while a group's preset is the `"off"` sentinel, no inbound
event is admitted at all — for any inbound stream the state is returned
exactly as it was (in particular nothing is enqueued) and no Group
Worker is ever spawned. -/
theorem c8_off_disables (cfg : Config) (st : GroupState)
    (h : st.preset_name = "off") (ins : List (RawEvent × Bool × Bool)) :
    submitSeq cfg st ins = (st, ins.map (fun _ => false)) := by
  induction ins with
  | nil => rfl
  | cons p rest ih =>
    obtain ⟨e, t, r⟩ := p
    have hsub : submit cfg st e t r = (st, false) := by
      rw [submit, is_triggered, if_pos h]
      rfl
    rw [submitSeq]
    rw [hsub, ih, List.map_cons]

/-- Claim C8 witness: an inbound burst against an `"off"` group. -/
theorem c8_off_disables_witness :
    stOff.preset_name = "off"
    ∧ submitSeq cfgX stOff
        [("x".toList, true, true), ("y".toList, true, false)]
      = (stOff, [false, false]) :=
  ⟨rfl, c8_off_disables cfgX stOff rfl _⟩

/-- Claim C9: the `"off"` sentinel check precedes the `past_events`
append inside `is_triggered`, so an event arriving while the group is
off is never recorded in `past_events` and stays invisible to every
later batch. -/
theorem c9_off_past_events_untouched (cfg : Config) (st : GroupState)
    (ev : RawEvent) (t r : Bool) (h : st.preset_name = "off") :
    (submit cfg st ev t r).1.past_events = st.past_events := by
  rw [submit, is_triggered, if_pos h]
  rfl

/-- Claim C9 witness: a directed message against an `"off"` group leaves
`past_events` untouched. -/
theorem c9_off_past_events_untouched_witness :
    stOff.preset_name = "off"
    ∧ (submit cfgX stOff ("z".toList) true true).1.past_events
        = stOff.past_events :=
  ⟨rfl, c9_off_past_events_untouched cfgX stOff ("z".toList) true true rfl⟩

/-- Claim C10: when the leading think block is empty (the text begins
with `"<think></think>"`), the captured group is the empty string, which
is falsy, so no reasoning is extracted and the text is returned
completely unchanged, empty tags included. -/
theorem c10_empty_think_block (u : PyStr) :
    pop_reasoning_content (some (thinkOpenT ++ (thinkCloseT ++ u)))
      = (some (thinkOpenT ++ (thinkCloseT ++ u)), none) := by
  have hm : matchThink (thinkOpenT ++ (thinkCloseT ++ u)) = some [] := by
    rw [matchThink, if_pos (isPrefixOf_append_self _ _), List.drop_left,
      splitFirst_self _ _ (by decide)]
  rw [pop_reasoning_content, hm]
  rfl
